import Mathlib

/-!
Verification development for the `gitday` command-line tool.

The tool is a small sequential pipeline: it parses CLI arguments, shells out
to git, filters the resulting diff text, formats a fixed prompt template,
stores a tiny JSON config file, and writes a generated summary to a file or
to the console.

JavaScript strings are modelled as `List Char` (called `JStr` below), and all
string operations used by the program (prefix test, substring test, split,
join, first-occurrence replacement, trim) are defined as structural Lean
functions mirroring the JavaScript semantics, so that every definition is
executable and concrete instances evaluate inside the kernel.

External effects (git subprocess calls, the AI HTTP call, file writes) are
modelled by passing their observable results as explicit inputs and by
returning explicit descriptions of the produced effect.
-/

namespace Gitday

/-- A JavaScript string, modelled as its list of characters. -/
abbrev JStr := List Char

/-- Embed a Lean string literal as a `JStr`. -/
def lit (s : String) : JStr := s.data

/-- `hasPref p s` is true when `p` is a prefix of `s`
(the JS regex test `/^p/` and `String.prototype.startsWith`). -/
def hasPref : JStr → JStr → Bool
  | [], _ => true
  | _ :: _, [] => false
  | p :: ps, c :: cs => p == c && hasPref ps cs

/-- `containsSub pat s` is true when `pat` occurs as a contiguous substring of
`s` (JS `String.prototype.includes`). -/
def containsSub (pat : JStr) : JStr → Bool
  | [] => hasPref pat []
  | c :: rest => hasPref pat (c :: rest) || containsSub pat rest

/-- Split on a single-character separator (JS `String.prototype.split` with a
one-character separator; the result is never empty and the empty string
splits to `[""]`). -/
def splitOnChar (sep : Char) : JStr → List JStr
  | [] => [[]]
  | c :: rest =>
    if c == sep then [] :: splitOnChar sep rest
    else
      match splitOnChar sep rest with
      | [] => [[c]]
      | r :: rs => (c :: r) :: rs

/-- Join with a single-character separator (JS `Array.prototype.join`). -/
def joinChar (sep : Char) : List JStr → JStr
  | [] => []
  | [x] => x
  | x :: y :: rest => x ++ sep :: joinChar sep (y :: rest)

/-- Remove the first occurrence of `pat` (JS `String.prototype.replace` with a
string pattern and an empty replacement: only the first occurrence is
replaced). -/
def replFirst (pat : JStr) : JStr → JStr
  | [] => []
  | c :: rest =>
    if pat.isEmpty then c :: rest
    else if hasPref pat (c :: rest) then List.drop (pat.length - 1) rest
    else c :: replFirst pat rest

/-- Whitespace test used by `trimJ` (the characters relevant to git output). -/
def wsp (c : Char) : Bool :=
  c == ' ' || c == '\n' || c == '\t' || c == '\r'

/-- JS `String.prototype.trim`: drop whitespace from both ends. -/
def trimJ (s : JStr) : JStr :=
  ((s.dropWhile wsp).reverse.dropWhile wsp).reverse

/-! ### Commit classification (`getCommitType`, unnamed source part_000 lines 300-306) -/

/-- The commit categories of the `CommitInfo.type` union in the source. -/
inductive CommitType where
  | feature
  | fix
  | refactor
  | docs
  | other
deriving DecidableEq, Repr

/-- `getCommitType` from the source: classify a commit subject by regex
prefix tests `/^feat/`, `/^fix/`, `/^refactor/`, `/^docs/`, in that order,
returning the category together with its emoji. -/
def getCommitType (subject : JStr) : CommitType × JStr :=
  if hasPref (lit "feat") subject then (CommitType.feature, lit "✨")
  else if hasPref (lit "fix") subject then (CommitType.fix, lit "🐛")
  else if hasPref (lit "refactor") subject then (CommitType.refactor, lit "♻️")
  else if hasPref (lit "docs") subject then (CommitType.docs, lit "📚")
  else (CommitType.other, lit "🔧")

/-! ### Diff filtering (`IGNORE_FILES` and the loop of `getDiffFromMain`,
src/src/index.ts lines 101-107 and 200-219) -/

/-- The fixed ignore list `IGNORE_FILES` of src/src/index.ts. -/
def IGNORE_FILES : List JStr :=
  [lit "package-lock.json", lit "yarn.lock", lit "pnpm-lock.yaml",
   lit "bun.lock", lit "deno.lock"]

/-- `line.startsWith('diff --git')`. -/
def isHeaderLine (l : JStr) : Bool := hasPref (lit "diff --git") l

/-- `line.split(' ').pop()?.replace('b/', '')`: the last space-separated token
of a header line, with the first occurrence of `b/` removed. -/
def headerFile (l : JStr) : JStr :=
  replFirst (lit "b/") ((splitOnChar ' ' l).getLastD [])

/-- `IGNORE_FILES.some(ignoreFile => fileName?.includes(ignoreFile))`. -/
def isIgnoredHeader (l : JStr) : Bool :=
  IGNORE_FILES.any (fun ig => containsSub ig (headerFile l))

/-- The filtering loop of `getDiffFromMain`: `skip` is the mutable `skipFile`
flag; it is recomputed at every `diff --git` header and lines are kept while
it is false. -/
def filterDiffLines (skip : Bool) : List JStr → List JStr
  | [] => []
  | l :: ls =>
    let skip2 := if isHeaderLine l then isIgnoredHeader l else skip
    if skip2 then filterDiffLines skip2 ls else l :: filterDiffLines skip2 ls

/-- The pure part of `getDiffFromMain` on a successful `git diff main`:
split into lines, run the filtering loop with `skipFile = false`, rejoin. -/
def filterDiff (d : JStr) : JStr :=
  joinChar '\n' (filterDiffLines false (splitOnChar '\n' d))

/-- Whether the file section governed by the given header (`none` before the
first header) is dropped. -/
def sectionSkip : Option JStr → Bool
  | none => false
  | some h => isIgnoredHeader h

/-- The spec-side description of the filter: track the governing
`diff --git` header of the current file section (`none` before the first
header) and drop exactly the lines whose governing header names an ignored
path, keeping every other line in order. -/
def keepLines (cur : Option JStr) : List JStr → List JStr
  | [] => []
  | l :: ls =>
    let cur2 := if isHeaderLine l then some l else cur
    if sectionSkip cur2 then keepLines cur2 ls
    else l :: keepLines cur2 ls

/-! ### Config store (`loadConfig` / `saveConfig`, src/src/index.ts lines 17-34)

The file `~/.gitday-config.json` is modelled by its parsed content:
`none` when the file does not exist, `some j` when it holds the JSON value
`j`.  `JSON.stringify` / `JSON.parse` are modelled at the level of JSON
values (the builtins are mutually inverse on the values produced here);
`JSON.stringify` omits object properties whose value is `undefined`, which
`configToJson` reflects by omitting the absent field. -/

/-- A JSON value, restricted to the shapes the program ever stores. -/
inductive Json where
  | str (s : JStr)
  | obj (fields : List (JStr × Json))

/-- Field lookup in a JSON object (JS property access on the parsed value). -/
def lookupField : List (JStr × Json) → JStr → Option Json
  | [], _ => none
  | (k, v) :: rest, key => if k = key then some v else lookupField rest key

/-- The `Config` interface of src/src/index.ts: an optional API key. -/
structure Config where
  apiKey : Option JStr
deriving DecidableEq, Repr

/-- `JSON.stringify(config, null, 2)` viewed as a JSON value: the `apiKey`
property is present exactly when the field is set. -/
def configToJson (c : Config) : Json :=
  Json.obj (match c.apiKey with
    | some s => [(lit "apiKey", Json.str s)]
    | none => [])

/-- `saveConfig`: overwrite the config file with the serialized config. -/
def saveConfig (c : Config) : Option Json := some (configToJson c)

/-- `loadConfig`: return `{}` when the file does not exist, otherwise parse
it and read the `apiKey` property. -/
def loadConfig : Option Json → Config
  | none => ⟨none⟩
  | some (Json.obj fs) =>
    ⟨match lookupField fs (lit "apiKey") with
     | some (Json.str s) => some s
     | _ => none⟩
  | some _ => ⟨none⟩

/-! ### CLI argument parsing (`parseArgs`, src/src/index.ts lines 115-132) -/

/-- The `CliOptions` interface of the source. -/
structure CliOptions where
  output : Option JStr
  log : Bool
  help : Bool
deriving DecidableEq, Repr

/-- The result shape `{ command, options }` of `parseArgs`. -/
structure ParsedArgs where
  command : JStr
  options : CliOptions
deriving DecidableEq, Repr

/-- The flag loop of `parseArgs` (`for (let i = 3; i < args.length; i++)`),
acting on the tokens from index 3 on.  `-o`/`--output` stores the following
token via `args[++i]` — when there is no following token the JS read is
`undefined`, so `output` is reassigned to `none` and the loop ends. -/
def parseFlags : List JStr → CliOptions → CliOptions
  | [], opts => opts
  | arg :: rest, opts =>
    if arg == lit "-o" || arg == lit "--output" then
      match rest with
      | [] => { opts with output := none }
      | nxt :: rest2 => parseFlags rest2 { opts with output := some nxt }
    else if arg == lit "-l" || arg == lit "--log" then
      parseFlags rest { opts with log := true }
    else if arg == lit "-h" || arg == lit "--help" then
      parseFlags rest { opts with help := true }
    else parseFlags rest opts

/-- `parseArgs(args)`: the command is `args[2] || 'help'` — the third token
when it exists (a JS string is falsy exactly when empty, and a missing index
reads `undefined`) — and the options come from the flag loop. -/
def parseArgs (args : List JStr) : ParsedArgs :=
  { command :=
      match args with
      | _ :: _ :: c :: _ => if c = [] then lit "help" else c
      | _ => lit "help"
    options := parseFlags (args.drop 3) ⟨none, false, false⟩ }

/-! ### Output sink (`handleOutput`, src/src/index.ts lines 261-271)

`handleOutput` first obtains the AI summary for the prompt (an external HTTP
call, modelled by passing the returned text as an input) and then sends that
text to exactly one sink. -/

/-- The single effect `handleOutput` performs with the summary text. -/
inductive OutputSink where
  | console (text : JStr)
  | file (name : JStr) (text : JStr)
deriving DecidableEq, Repr

/-- `handleOutput`: console when `options.log` is set, otherwise write the
file `options.output || 'prompt.txt'` (a JS string is falsy exactly when
empty). -/
def handleOutput (aiSummary : JStr) (options : CliOptions) : OutputSink :=
  if options.log then OutputSink.console aiSummary
  else
    OutputSink.file
      (match options.output with
       | some o => if o = [] then lit "prompt.txt" else o
       | none => lit "prompt.txt")
      aiSummary

/-! ### Prompt template (`generatePrompt`, src/src/index.ts lines 230-259) -/

/-- The `type` parameter of `generatePrompt`. -/
inductive PromptKind where
  | today
  | unpushed
deriving DecidableEq, Repr

/-- `generatePrompt`: the fixed template literal of the source, with the
commit list rendered as `- ` lines (or `'No commits found'` when empty) and
the diff block `diff || 'No changes found'`. -/
def generatePrompt (commits : List JStr) (diff : JStr) (type : PromptKind) : JStr :=
  let commitType := if type = PromptKind.today then lit "today" else lit "unpushed"
  lit "# Daily Progress Summary\n\n## Commits (" ++ commitType ++ lit ")\n" ++
  (if commits.length > 0 then
     joinChar '\n' (commits.map (fun commit => lit "- " ++ commit))
   else lit "No commits found") ++
  lit "\n\n## Code Changes\n```diff\n" ++
  (if diff = [] then lit "No changes found" else diff) ++
  lit "\n```\n\n## Instructions\nList only what applies:\n\n**Features:**\n- [new features added]\n\n**Refactors:**\n- [code improvements/restructuring]\n\n**Issues Resolved:**\n- [bugs fixed/issues closed]\n\n**Other:**\n- [anything else noteworthy]\n\nOne line per item. Skip sections if nothing applies."

/-- Spec-side: the fixed template prefix up to the commits block. -/
def promptPre (type : PromptKind) : JStr :=
  lit "# Daily Progress Summary\n\n## Commits (" ++
  (if type = PromptKind.today then lit "today" else lit "unpushed") ++ lit ")\n"

/-- Spec-side: the commits block — each commit as a `- ` line in input
order, or the literal `No commits found` for the empty list. -/
def commitsBlock : List JStr → JStr
  | [] => lit "No commits found"
  | c :: cs => joinChar '\n' ((c :: cs).map (fun commit => lit "- " ++ commit))

/-- Spec-side: the fixed template text between the commits block and the
diff block. -/
def promptMid : JStr := lit "\n\n## Code Changes\n```diff\n"

/-- Spec-side: the diff block — the diff text, or the literal
`No changes found` when it is empty. -/
def diffBlock : JStr → JStr
  | [] => lit "No changes found"
  | c :: d => c :: d

/-- Spec-side: the fixed template tail after the diff block. -/
def promptTail : JStr :=
  lit "\n```\n\n## Instructions\nList only what applies:\n\n**Features:**\n- [new features added]\n\n**Refactors:**\n- [code improvements/restructuring]\n\n**Issues Resolved:**\n- [bugs fixed/issues closed]\n\n**Other:**\n- [anything else noteworthy]\n\nOne line per item. Skip sections if nothing applies."

/-! ### External command failure handling (src/src/index.ts lines 167-228)

Each wrapper around `execSync` is modelled as a function of the observable
outcome of the external git command; the wrapper either continues with a
value or terminates the process (`console.error` + `process.exit`). -/

/-- The observable outcome of one `execSync` call. -/
inductive ExecResult where
  | ok (out : JStr)
  | err
deriving DecidableEq, Repr

/-- What a wrapper does after the external call: terminate the process with
an error message, or continue with a value. -/
inductive ProgResult (α : Type) where
  | exits (msg : JStr)
  | returns (val : α)
deriving DecidableEq, Repr

/-- Whether a wrapper outcome terminates the process. -/
def isExit {α : Type} : ProgResult α → Bool
  | ProgResult.exits _ => true
  | ProgResult.returns _ => false

/-- The message printed by `checkGitRepo` before exiting. -/
def msgNotGitRepo : JStr :=
  lit "❌ Not in a git repository. This tool only works in git repositories."

/-- `checkGitRepo`: `git status` succeeds → return true; fails → print the
error and `process.exit(1)`. -/
def checkGitRepo : ExecResult → ProgResult Bool
  | ExecResult.ok _ => ProgResult.returns true
  | ExecResult.err => ProgResult.exits msgNotGitRepo

/-- The parse of `git log` stdout used by `getTodayCommits` and
`getUnpushedCommits`: `output.trim() ? output.trim().split('\n') : []`. -/
def parseLogOutput (out : JStr) : List JStr :=
  if trimJ out = [] then [] else splitOnChar '\n' (trimJ out)

/-- `getTodayCommits`: on success parse the log lines, on failure the catch
block returns the empty list (no message, no exit). -/
def getTodayCommits : ExecResult → ProgResult (List JStr)
  | ExecResult.ok out => ProgResult.returns (parseLogOutput out)
  | ExecResult.err => ProgResult.returns []

/-- `getDiffFromMain` with its two `execSync` calls: filter a successful
`git diff main`; on failure warn and fall back to plain `git diff`; when
that also fails return the literal `'No changes found'` (never an exit). -/
def getDiffFromMain : ExecResult → ExecResult → ProgResult JStr
  | ExecResult.ok d, _ => ProgResult.returns (filterDiff d)
  | ExecResult.err, ExecResult.ok d2 => ProgResult.returns d2
  | ExecResult.err, ExecResult.err => ProgResult.returns (lit "No changes found")

/-! ### The `both` command (src/src/index.ts lines 300-308)

`[...new Set([...todayCommits, ...unpushedCommits])]`: a JS `Set` keeps
insertion order and skips elements already present, i.e. it keeps the first
occurrence of each element of the concatenation. -/

/-- First-occurrence deduplication with an accumulator of already-seen
elements (the JS `Set` in insertion order). -/
def dedupGo {α : Type} [DecidableEq α] (seen : List α) : List α → List α
  | [] => []
  | x :: xs => if x ∈ seen then dedupGo seen xs else x :: dedupGo (x :: seen) xs

/-- The combination step of the `both` command. -/
def combineBoth (todayCommits unpushedCommits : List JStr) : List JStr :=
  dedupGo [] (todayCommits ++ unpushedCommits)

/-! ## Helper lemmas -/

/-- The imperative skip-flag loop computes the governing-header description:
running the loop with the skip flag of a governing header `cur` keeps
exactly the lines `keepLines cur` keeps. -/
theorem filterDiffLines_eq_keepLines (xs : List JStr) :
    ∀ cur : Option JStr, filterDiffLines (sectionSkip cur) xs = keepLines cur xs := by
  induction xs with
  | nil => intro cur; rfl
  | cons l ls ih =>
    intro cur
    simp only [filterDiffLines, keepLines]
    by_cases hl : isHeaderLine l = true
    · by_cases hi : isIgnoredHeader l = true
      · have h2 := ih (some l)
        simp [sectionSkip, hi] at h2
        simp [hl, hi, sectionSkip, h2]
      · simp only [Bool.not_eq_true] at hi
        have h2 := ih (some l)
        simp [sectionSkip, hi] at h2
        simp [hl, hi, sectionSkip, h2]
    · simp only [Bool.not_eq_true] at hl
      by_cases hs : sectionSkip cur = true
      · have h2 := ih cur
        rw [hs] at h2
        simp [hl, hs, h2]
      · simp only [Bool.not_eq_true] at hs
        have h2 := ih cur
        rw [hs] at h2
        simp [hl, hs, h2]

/-- The filtering loop only ever removes lines: its output is a sublist of
its input, in the original order. -/
theorem filterDiffLines_sublist (xs : List JStr) :
    ∀ b : Bool, (filterDiffLines b xs).Sublist xs := by
  induction xs with
  | nil => intro b; simp [filterDiffLines]
  | cons l ls ih =>
    intro b
    simp only [filterDiffLines]
    by_cases h : (if isHeaderLine l then isIgnoredHeader l else b) = true
    · simp only [h, if_true]
      exact (ih _).cons l
    · simp only [Bool.not_eq_true] at h
      simp only [h, Bool.false_eq_true, if_false]
      exact (ih _).cons₂ l

/-- Re-running the filtering loop from a clean state on its own output
changes nothing. -/
theorem filterDiffLines_idem (xs : List JStr) :
    ∀ b : Bool, filterDiffLines false (filterDiffLines b xs) = filterDiffLines b xs := by
  induction xs with
  | nil => intro b; rfl
  | cons l ls ih =>
    intro b
    by_cases hl : isHeaderLine l = true
    · by_cases hi : isIgnoredHeader l = true
      · simp [filterDiffLines, hl, hi, ih true]
      · simp only [Bool.not_eq_true] at hi
        simp [filterDiffLines, hl, hi, ih false]
    · simp only [Bool.not_eq_true] at hl
      cases b with
      | false => simp [filterDiffLines, hl, ih false]
      | true => simp [filterDiffLines, hl, ih true]

/-- Lines before the first `diff --git` header pass through the filter
unchanged. -/
theorem filterDiffLines_no_header (pre rest : List JStr)
    (h : ∀ l ∈ pre, isHeaderLine l = false) :
    filterDiffLines false (pre ++ rest) = pre ++ filterDiffLines false rest := by
  induction pre with
  | nil => rfl
  | cons l pre ih =>
    have hl : isHeaderLine l = false := h l (List.mem_cons_self l pre)
    have h2 : ∀ x ∈ pre, isHeaderLine x = false :=
      fun x hx => h x (List.mem_cons_of_mem l hx)
    simp [filterDiffLines, hl, ih h2]

/-- `dedupGo` only consults the seen accumulator through membership. -/
theorem dedupGo_ext {α : Type} [DecidableEq α] (l : List α) :
    ∀ s1 s2 : List α, (∀ x, x ∈ s1 ↔ x ∈ s2) → dedupGo s1 l = dedupGo s2 l := by
  induction l with
  | nil => intro s1 s2 _; rfl
  | cons x xs ih =>
    intro s1 s2 h
    simp only [dedupGo]
    by_cases hx : x ∈ s1
    · rw [if_pos hx, if_pos ((h x).mp hx)]
      exact ih s1 s2 h
    · rw [if_neg hx, if_neg (fun c => hx ((h x).mpr c))]
      have h2 : ∀ y, y ∈ x :: s1 ↔ y ∈ x :: s2 := by
        intro y; simp only [List.mem_cons]; rw [h y]
      rw [ih _ _ h2]

/-- Splitting `dedupGo` across an append: the first part is deduplicated
first, and the second part is deduplicated with the first part also seen. -/
theorem dedupGo_append {α : Type} [DecidableEq α] (l1 : List α) :
    ∀ seen l2 : List α,
      dedupGo seen (l1 ++ l2) = dedupGo seen l1 ++ dedupGo (l1 ++ seen) l2 := by
  induction l1 with
  | nil => intro seen l2; rfl
  | cons x l1 ih =>
    intro seen l2
    simp only [List.cons_append, dedupGo, List.append_eq]
    by_cases hx : x ∈ seen
    · rw [if_pos hx, if_pos hx, ih]
      congr 1
      apply dedupGo_ext
      intro y
      simp only [List.mem_append, List.mem_cons]
      constructor
      · intro hy; tauto
      · rintro (rfl | hy | hy)
        · exact Or.inr hx
        · exact Or.inl hy
        · exact Or.inr hy
    · rw [if_neg hx, if_neg hx, ih (x :: seen) l2, List.cons_append]
      congr 2
      apply dedupGo_ext
      intro y
      simp only [List.mem_append, List.mem_cons]
      tauto

/-- Elements already seen never appear in the output of `dedupGo`. -/
theorem dedupGo_not_mem {α : Type} [DecidableEq α] (l : List α) :
    ∀ (seen : List α) (x : α), x ∈ seen → x ∉ dedupGo seen l := by
  induction l with
  | nil => intro seen x _ hmem; exact absurd hmem (List.not_mem_nil x)
  | cons y ys ih =>
    intro seen x hx
    simp only [dedupGo]
    by_cases hy : y ∈ seen
    · rw [if_pos hy]; exact ih seen x hx
    · rw [if_neg hy]
      intro hmem
      rcases List.mem_cons.mp hmem with rfl | hmem2
      · exact hy hx
      · exact ih (y :: seen) x (List.mem_cons_of_mem y hx) hmem2

/-- The output of `dedupGo` has no duplicates. -/
theorem dedupGo_nodup {α : Type} [DecidableEq α] (l : List α) :
    ∀ seen : List α, (dedupGo seen l).Nodup := by
  induction l with
  | nil => intro seen; exact List.nodup_nil
  | cons x xs ih =>
    intro seen
    simp only [dedupGo]
    by_cases hx : x ∈ seen
    · rw [if_pos hx]; exact ih seen
    · rw [if_neg hx]
      exact List.nodup_cons.mpr
        ⟨dedupGo_not_mem xs (x :: seen) x (List.mem_cons_self x seen), ih (x :: seen)⟩

/-- `dedupGo` keeps a sublist of its input, in the original order. -/
theorem dedupGo_sublist {α : Type} [DecidableEq α] (l : List α) :
    ∀ seen : List α, (dedupGo seen l).Sublist l := by
  induction l with
  | nil => intro seen; exact List.Sublist.refl []
  | cons x xs ih =>
    intro seen
    simp only [dedupGo]
    by_cases hx : x ∈ seen
    · rw [if_pos hx]; exact (ih seen).cons x
    · rw [if_neg hx]; exact (ih (x :: seen)).cons₂ x

/-! ## Claim theorems -/

/-- C1: `getCommitType` maps the known prefixes to their categories — a
subject starting with `feat` to `feature`, `fix` to `fix`, `refactor` to
`refactor`, `docs` to `docs`, checked in that order — and returns `other`
for every subject starting with none of these prefixes. -/
theorem claim_C1 (s : JStr) :
    (hasPref (lit "feat") s = true →
       getCommitType s = (CommitType.feature, lit "✨")) ∧
    (hasPref (lit "feat") s = false → hasPref (lit "fix") s = true →
       getCommitType s = (CommitType.fix, lit "🐛")) ∧
    (hasPref (lit "feat") s = false → hasPref (lit "fix") s = false →
       hasPref (lit "refactor") s = true →
       getCommitType s = (CommitType.refactor, lit "♻️")) ∧
    (hasPref (lit "feat") s = false → hasPref (lit "fix") s = false →
       hasPref (lit "refactor") s = false → hasPref (lit "docs") s = true →
       getCommitType s = (CommitType.docs, lit "📚")) ∧
    (hasPref (lit "feat") s = false → hasPref (lit "fix") s = false →
       hasPref (lit "refactor") s = false → hasPref (lit "docs") s = false →
       getCommitType s = (CommitType.other, lit "🔧")) := by
  refine ⟨?_, ?_, ?_, ?_, ?_⟩ <;> intros <;> simp_all [getCommitType]

/-- Witness for C1: a concrete subject matching none of the prefixes is
classified `other`, with every hypothesis discharged by evaluation. -/
theorem claim_C1_witness :
    hasPref (lit "feat") (lit "chore: tidy") = false ∧
    hasPref (lit "fix") (lit "chore: tidy") = false ∧
    hasPref (lit "refactor") (lit "chore: tidy") = false ∧
    hasPref (lit "docs") (lit "chore: tidy") = false ∧
    getCommitType (lit "chore: tidy") = (CommitType.other, lit "🔧") :=
  ⟨by decide, by decide, by decide, by decide,
   (claim_C1 (lit "chore: tidy")).2.2.2.2 (by decide) (by decide) (by decide) (by decide)⟩

/-- C2: the filtering in `getDiffFromMain` drops exactly the lines whose
governing `diff --git` header names a path matching the fixed ignore list,
and keeps every other line in its original order: the imperative loop equals
the governing-header description `keepLines`, its output is an in-order
sublist of its input, and the string-level filter is the same computation on
the split lines. -/
theorem claim_C2 :
    (∀ diffLines : List JStr,
       filterDiffLines false diffLines = keepLines none diffLines) ∧
    (∀ diffLines : List JStr, (filterDiffLines false diffLines).Sublist diffLines) ∧
    (∀ d : JStr,
       filterDiff d = joinChar '\n' (keepLines none (splitOnChar '\n' d))) :=
  ⟨fun diffLines => filterDiffLines_eq_keepLines diffLines none,
   fun diffLines => filterDiffLines_sublist diffLines false,
   fun d => congrArg (joinChar '\n')
     (filterDiffLines_eq_keepLines (splitOnChar '\n' d) none)⟩

/-- C3: saving a config and loading it back through the JSON file returns
the same config. -/
theorem claim_C3 (c : Config) : loadConfig (saveConfig c) = c := by
  cases c with
  | mk apiKey => cases apiKey <;> rfl

/-- C4 as stated is false: an empty third token is a present token, yet the
command becomes `help`; and with the log option set and no output option,
`handleOutput` sends the text to the console, not to the default file. -/
theorem claim_C4_counterexample :
    (parseArgs [lit "node", lit "gitday", lit ""]).command ≠ lit "" ∧
    handleOutput (lit "summary") ⟨none, true, false⟩ =
      OutputSink.console (lit "summary") :=
  ⟨by decide, rfl⟩

/-- C4 (amended): `parseArgs` returns as command the third token when it is
present and nonempty and `help` when it is absent or empty; `-o`/`--output`
set `options.output` to the next token, `-l`/`--log` set `options.log`,
`-h`/`--help` set `options.help`; and when no output option was given and
the log option is not set, `handleOutput` writes to the default output
filename `prompt.txt`. -/
theorem claim_C4 :
    ((parseArgs []).command = lit "help") ∧
    (∀ a, (parseArgs [a]).command = lit "help") ∧
    (∀ a b, (parseArgs [a, b]).command = lit "help") ∧
    (∀ a b c rest, (parseArgs (a :: b :: c :: rest)).command =
       if c = [] then lit "help" else c) ∧
    (∀ args, (parseArgs args).options = parseFlags (args.drop 3) ⟨none, false, false⟩) ∧
    (∀ opts nxt rest, parseFlags (lit "-o" :: nxt :: rest) opts =
       parseFlags rest { opts with output := some nxt }) ∧
    (∀ opts nxt rest, parseFlags (lit "--output" :: nxt :: rest) opts =
       parseFlags rest { opts with output := some nxt }) ∧
    (∀ opts rest, parseFlags (lit "-l" :: rest) opts =
       parseFlags rest { opts with log := true }) ∧
    (∀ opts rest, parseFlags (lit "--log" :: rest) opts =
       parseFlags rest { opts with log := true }) ∧
    (∀ opts rest, parseFlags (lit "-h" :: rest) opts =
       parseFlags rest { opts with help := true }) ∧
    (∀ opts rest, parseFlags (lit "--help" :: rest) opts =
       parseFlags rest { opts with help := true }) ∧
    (∀ s h, handleOutput s ⟨none, false, h⟩ =
       OutputSink.file (lit "prompt.txt") s) := by
  refine ⟨rfl, fun _ => rfl, fun _ _ => rfl, fun _ _ _ _ => rfl, fun _ => rfl,
    fun _ _ _ => rfl, fun _ _ _ => rfl, ?_, ?_, ?_, ?_, fun _ _ => rfl⟩
  all_goals intro opts rest; cases rest <;> rfl

/-- C5 as stated is false: a failing `git log` in `getTodayCommits` is
recovered by returning the empty commit list, and a failing
`git diff main` in `getDiffFromMain` is recovered by falling back to the
plain `git diff` output — neither exits. -/
theorem claim_C5_counterexample :
    isExit (getTodayCommits ExecResult.err) = false ∧
    isExit (getDiffFromMain ExecResult.err (ExecResult.ok (lit "wd diff"))) = false :=
  ⟨rfl, rfl⟩

/-- C5 (amended): only the repository check `checkGitRepo` prints an error
and exits when its git command fails; the other wrappers never exit and
recover instead — `getTodayCommits` returns the empty list on failure, and
`getDiffFromMain` falls back to the working-directory diff, or to the
literal `No changes found` when that fails too. -/
theorem claim_C5 :
    (checkGitRepo ExecResult.err = ProgResult.exits msgNotGitRepo) ∧
    (∀ out, checkGitRepo (ExecResult.ok out) = ProgResult.returns true) ∧
    (∀ e, isExit (getTodayCommits e) = false) ∧
    (getTodayCommits ExecResult.err = ProgResult.returns []) ∧
    (∀ out, getTodayCommits (ExecResult.ok out) = ProgResult.returns (parseLogOutput out)) ∧
    (∀ e1 e2, isExit (getDiffFromMain e1 e2) = false) ∧
    (∀ d, ∀ e2, getDiffFromMain (ExecResult.ok d) e2 = ProgResult.returns (filterDiff d)) ∧
    (∀ d2, getDiffFromMain ExecResult.err (ExecResult.ok d2) = ProgResult.returns d2) ∧
    (getDiffFromMain ExecResult.err ExecResult.err =
       ProgResult.returns (lit "No changes found")) := by
  refine ⟨rfl, fun _ => rfl, ?_, rfl, fun _ => rfl, ?_, fun _ _ => rfl, fun _ => rfl, rfl⟩
  · intro e; cases e <;> rfl
  · intro e1 e2; cases e1 <;> cases e2 <;> rfl

/-- C6 as stated is false: with the log option unset and the output option
set to the empty filename, `handleOutput` writes to `prompt.txt`, not to the
named (empty) file. -/
theorem claim_C6_counterexample :
    handleOutput (lit "summary") ⟨some [], false, false⟩ =
      OutputSink.file (lit "prompt.txt") (lit "summary") ∧
    lit "prompt.txt" ≠ ([] : JStr) :=
  ⟨rfl, by decide⟩

/-- C6 (amended): `handleOutput` sends the summary text to exactly one sink
— the value of `handleOutput` is a single `OutputSink` — namely the console
when the log option is set, and otherwise the output file: the named file
when a nonempty name was given, and `prompt.txt` when the option is absent
or names the empty string. -/
theorem claim_C6 :
    (∀ s out h, handleOutput s ⟨out, true, h⟩ = OutputSink.console s) ∧
    (∀ s h, handleOutput s ⟨none, false, h⟩ =
       OutputSink.file (lit "prompt.txt") s) ∧
    (∀ s n h, handleOutput s ⟨some n, false, h⟩ =
       OutputSink.file (if n = [] then lit "prompt.txt" else n) s) :=
  ⟨fun _ _ _ => rfl, fun _ _ => rfl, fun _ _ _ => rfl⟩

/-- C7: `generatePrompt` produces the fixed text template — the prefix,
the commits block, the fixed middle, the diff block and the fixed tail —
where each commit is rendered as a `- ` line in input order, the literal
`No commits found` is substituted when the commit list is empty, and
`No changes found` is substituted in the code-changes block when the diff
string is empty. -/
theorem claim_C7 (commits : List JStr) (diff : JStr) (type : PromptKind) :
    generatePrompt commits diff type =
      promptPre type ++ commitsBlock commits ++ promptMid ++
        diffBlock diff ++ promptTail ∧
    commitsBlock [] = lit "No commits found" ∧
    (∀ c cs, commitsBlock (c :: cs) =
       joinChar '\n' ((c :: cs).map (fun commit => lit "- " ++ commit))) ∧
    diffBlock [] = lit "No changes found" ∧
    (∀ c d, diffBlock (c :: d) = c :: d) := by
  refine ⟨?_, rfl, fun _ _ => rfl, rfl, fun _ _ => rfl⟩
  cases commits <;> cases diff <;>
    simp [generatePrompt, promptPre, commitsBlock, promptMid, diffBlock,
      promptTail, List.append_assoc]

/-- C8: `parseArgs` (a total function here, so it terminates and cannot read
past the end of the token list) leaves `options.output` unset when `-o` or
`--output` is the final token — so the default `prompt.txt` applies
downstream — and always consumes the token immediately after `-o`/`--output`
as the output filename, even when that token is itself a flag such as
`--log`. -/
theorem claim_C8 :
    (∀ opts, parseFlags [lit "-o"] opts = { opts with output := none }) ∧
    (∀ opts, parseFlags [lit "--output"] opts = { opts with output := none }) ∧
    (∀ opts nxt rest, parseFlags (lit "-o" :: nxt :: rest) opts =
       parseFlags rest { opts with output := some nxt }) ∧
    (∀ opts nxt rest, parseFlags (lit "--output" :: nxt :: rest) opts =
       parseFlags rest { opts with output := some nxt }) ∧
    (∀ opts rest, parseFlags (lit "-o" :: lit "--log" :: rest) opts =
       parseFlags rest { opts with output := some (lit "--log") }) ∧
    ((parseArgs [lit "node", lit "gitday", lit "today", lit "-o"]).options.output = none) ∧
    (∀ s h, handleOutput s ⟨none, false, h⟩ =
       OutputSink.file (lit "prompt.txt") s) :=
  ⟨fun _ => rfl, fun _ => rfl, fun _ _ _ => rfl, fun _ _ _ => rfl,
   fun _ _ => rfl, rfl, fun _ _ => rfl⟩

/-- C9: the diff-line filter is idempotent — applying it to its own output
returns that output unchanged — and every line preceding the first
`diff --git` header is always kept. -/
theorem claim_C9 :
    (∀ diffLines : List JStr,
       filterDiffLines false (filterDiffLines false diffLines) =
         filterDiffLines false diffLines) ∧
    (∀ pre rest : List JStr, (∀ l ∈ pre, isHeaderLine l = false) →
       filterDiffLines false (pre ++ rest) = pre ++ filterDiffLines false rest) :=
  ⟨fun diffLines => filterDiffLines_idem diffLines false,
   fun pre rest h => filterDiffLines_no_header pre rest h⟩

/-- Witness for C9: idempotence on a concrete diff, and a concrete
header-free prelude passing through unchanged, with the hypothesis
discharged by evaluation. -/
theorem claim_C9_witness :
    (∀ l ∈ [lit "hello", lit "world"], isHeaderLine l = false) ∧
    filterDiffLines false
        (filterDiffLines false
          [lit "ctx", lit "diff --git a/yarn.lock b/yarn.lock", lit "+x",
           lit "diff --git a/a.ts b/a.ts", lit "+y"]) =
      filterDiffLines false
        [lit "ctx", lit "diff --git a/yarn.lock b/yarn.lock", lit "+x",
         lit "diff --git a/a.ts b/a.ts", lit "+y"] ∧
    filterDiffLines false
        ([lit "hello", lit "world"] ++ [lit "diff --git a/bun.lock b/bun.lock", lit "+1"]) =
      [lit "hello", lit "world"] ++
        filterDiffLines false [lit "diff --git a/bun.lock b/bun.lock", lit "+1"] :=
  ⟨by decide, claim_C9.1 _, claim_C9.2 _ _ (by decide)⟩

/-- C10: for the `both` command the combined commit list contains each
commit at most once: it is today's commits deduplicated, followed by the
previously-unseen unpushed commits deduplicated, each part an in-order
sublist of its source list, and the whole has no duplicates. -/
theorem claim_C10 (todayCommits unpushedCommits : List JStr) :
    combineBoth todayCommits unpushedCommits =
      dedupGo [] todayCommits ++ dedupGo todayCommits unpushedCommits ∧
    (combineBoth todayCommits unpushedCommits).Nodup ∧
    (dedupGo [] todayCommits).Sublist todayCommits ∧
    (dedupGo todayCommits unpushedCommits).Sublist unpushedCommits := by
  refine ⟨?_, dedupGo_nodup _ [], dedupGo_sublist _ [], dedupGo_sublist _ _⟩
  unfold combineBoth
  rw [dedupGo_append, List.append_nil]

end Gitday
